import Mathlib

/-!
Verification of the masque-plus endpoint scanner and process supervisor.

This file gives a shallow embedding, in Lean 4, of the candidate-selection
engine of masque-plus:

* `TryCandidates` (internal/scanner/scanner.go): the sequential orchestration
  loop over endpoint candidates.  Effectful collaborators (the QUIC precheck
  probe and the caller-supplied start function) are modelled as oracles
  indexed by the loop position, and the loop is instrumented with an explicit
  event trace recording precheck failures, start-function invocations and
  stop-action invocations.
* `BuildCandidates` / `isNetworkOrBroadcast` (internal/scanner/scanner.go):
  CIDR expansion.  IPv4 addresses are modelled as natural numbers below 2^32
  (the 4-byte form), IPv6 addresses as naturals below 2^128; `nextIP`'s
  byte-wise increment becomes `+1` (with wrap-around modulo 2^128 for the
  16-byte form), and `net.IPNet.Contains` becomes a mask test.  The unbounded
  `for` loop is given a fuel parameter that dominates every possible
  iteration count.  Go's `rand.Intn` (port selection) is modelled by an
  oracle giving the random value drawn at each call, and `net.IP.String` for
  IPv6 by an oracle; IPv4 dotted-quad formatting is defined concretely.
* `handleScanner` / `runSocks` (main.go): the per-line classification of the
  child process output and the final-error selection.
* the scan-mode start function (main.go) and `addEndpointToConfig` /
  `parseEndpoint` (main.go), with `net.ParseIP` as an oracle and the JSON
  configuration object as a key-value map.
-/

namespace Masque

/-! ### Definitions: the shallow embedding of the program -/

/-- Model of Go `strings.ToLower` restricted to ASCII (all markers matched by
the supervisor are ASCII). -/
def lowerChar (c : Char) : Char :=
  if 'A' ≤ c && c ≤ 'Z' then Char.ofNat (c.toNat + 32) else c

/-- ASCII lower-casing of a string. -/
def strLower (s : String) : String := String.mk (s.data.map lowerChar)

/-- Substring search on character lists: `sub` occurs somewhere in `s`. -/
def containsAux (sub : List Char) : List Char → Bool
  | [] => sub.isPrefixOf []
  | c :: t => sub.isPrefixOf (c :: t) || containsAux sub t

/-- Model of Go `strings.Contains`. -/
def strContains (s sub : String) : Bool := containsAux sub.data s.data

/-- The triple returned by one invocation of the start function given to
`TryCandidates` (`func(ep string) (stop func(), ok bool, err error)`); the
effectful start function is modelled as an oracle `Nat → String → StartRes`
indexed by the loop position, and `hasStop` records whether the returned
stop-action was non-nil. -/
structure StartRes where
  hasStop : Bool
  ok : Bool
  err : Option String
deriving DecidableEq

/-- Observable events of the orchestration loop, tagged with the loop index:
`precheckFail i` = the QUIC probe rejected candidate `i` (start function not
invoked); `start i` = the start function was invoked on candidate `i`;
`stop i` = the stop-action returned by that invocation was invoked. -/
inductive Ev where
  | precheckFail (i : Nat)
  | start (i : Nat)
  | stop (i : Nat)
deriving DecidableEq

/-- The loop index an event is about. -/
def evIdx : Ev → Nat
  | .precheckFail i => i
  | .start i => i
  | .stop i => i

/-- Outcome of one iteration of the `TryCandidates` loop. -/
inductive StepKind where
  | skipped   -- precheck failed, `continue` without calling the start function
  | startErr  -- start function returned a non-nil error
  | success   -- start function returned ok (and nil error)
  | notReady  -- start function returned not-ok, nil error
deriving DecidableEq

/-- Classification of iteration `i` on candidate `ep`, following the Go
control flow: `ping`-guarded probe first, then `err != nil`, then `ok`. -/
def stepKind (ping : Bool) (probe : Nat → String → Bool)
    (startFn : Nat → String → StartRes) (i : Nat) (ep : String) : StepKind :=
  if ping && !(probe i ep) then .skipped
  else
    match (startFn i ep).err with
    | some _ => .startErr
    | none => if (startFn i ep).ok then .success else .notReady

/-- The events emitted by iteration `i`: on a precheck failure only
`precheckFail`; otherwise the start function is invoked, and on each of the
three remaining paths (error, success, not ready) the Go code invokes the
returned stop-action (when non-nil) before moving on. -/
def stepEvents (ping : Bool) (probe : Nat → String → Bool)
    (startFn : Nat → String → StartRes) (i : Nat) (ep : String) : List Ev :=
  if stepKind ping probe startFn i ep = StepKind.skipped then [Ev.precheckFail i]
  else Ev.start i :: (if (startFn i ep).hasStop then [Ev.stop i] else [])

/-- The `for i := 0; i < maxToTry; i++` loop of `TryCandidates`, run over the
(index, candidate) pairs still to be tried.  Returns the selected endpoint
(if any) and the event trace. -/
def tryLoop (ping : Bool) (probe : Nat → String → Bool)
    (startFn : Nat → String → StartRes) : List (Nat × String) → Option String × List Ev
  | [] => (none, [])
  | (i, ep) :: rest =>
    let evs := stepEvents ping probe startFn i ep
    if stepKind ping probe startFn i ep = StepKind.success then
      (some ep, evs)
    else
      let r := tryLoop ping probe startFn rest
      (r.1, evs ++ r.2)

/-- `if maxToTry <= 0 || maxToTry > len(candidates) { maxToTry = len(candidates) }` -/
def effectiveMax (maxToTry : Int) (n : Nat) : Nat :=
  if maxToTry ≤ 0 ∨ maxToTry > (n : Int) then n else maxToTry.toNat

/-- Model of `TryCandidates` (scanner.go): first component is the Go return
value (`(string, error)` as an `Except`), second the event trace. -/
def TryCandidates (candidates : List String) (maxToTry : Int) (ping : Bool)
    (probe : Nat → String → Bool) (startFn : Nat → String → StartRes) :
    Except String String × List Ev :=
  let m := effectiveMax maxToTry candidates.length
  let r := tryLoop ping probe startFn (List.enumFrom 0 (candidates.take m))
  match r.1 with
  | some ep => (Except.ok ep, r.2)
  | none => (Except.error ("no viable endpoint found (tried " ++ toString m ++ ")"), r.2)

/-- Recognizer for start-function invocation events. -/
def isStartEv : Ev → Bool
  | .start _ => true
  | _ => false

/-- The shared supervision state (`procState` in main.go); killing the
subprocess is modelled by the idempotent `killed` flag. -/
structure ProcState where
  connected : Bool
  privateKeyErr : Bool
  endpointErr : Bool
  handshakeFail : Bool
  serveAddrShown : Bool
  tunnelFailCnt : Nat
  killed : Bool
deriving DecidableEq

/-- The zero value of `procState` (`&procState{}`). -/
def initState : ProcState := ⟨false, false, false, false, false, 0, false⟩

/-- One iteration of the `handleScanner` line loop: the switch over marker
substrings, in source order.  Only the first matching case runs. -/
def handleLine (tunnelFailLimit : Nat) (st : ProcState) (line : String) : ProcState :=
  let lower := strLower line
  if strContains line "Connected to MASQUE server" then
    { st with connected := true, serveAddrShown := true }
  else if strContains lower "tls: handshake" || strContains lower "handshake failure" ||
      strContains lower "crypto_error" || strContains lower "remote error" then
    { st with handshakeFail := true, killed := true }
  else if strContains lower "invalid endpoint" then
    { st with endpointErr := true, killed := true }
  else if strContains lower "login failed!" then
    { st with killed := true }
  else if strContains lower "failed to connect tunnel" then
    { st with
      tunnelFailCnt := st.tunnelFailCnt + 1,
      killed := st.killed || decide (st.tunnelFailCnt + 1 ≥ tunnelFailLimit) }
  else if strContains lower "failed to get private key" then
    { st with privateKeyErr := true, killed := true }
  else st

/-- `handleScanner` over a complete stream of lines, including the
normalisation `if tunnelFailLimit <= 0 { tunnelFailLimit = 1 }`. -/
def handleLines (tunnelFailLimit : Int) (st : ProcState) (lines : List String) :
    ProcState :=
  let limit : Nat := if tunnelFailLimit ≤ 0 then 1 else tunnelFailLimit.toNat
  lines.foldl (handleLine limit) st

/-- The final-error selection of `runSocks` when the child process exits (the
`waitCh` branch): private-key error first, then endpoint error, then
handshake failure, else the raw exit error. -/
def classifyExit (st : ProcState) (exitErr : Option String) : Option String :=
  if st.privateKeyErr then some "failed to get private key"
  else if st.endpointErr then some "failed to set endpoint"
  else if st.handshakeFail then some "handshake failure"
  else exitErr

/-- A line whose first matching case in the `handleScanner` switch is the
private-key case: it contains the private-key marker and none of the markers
checked before it. -/
def pkMarkerLine (line : String) : Bool :=
  strContains (strLower line) "failed to get private key" &&
  !strContains line "Connected to MASQUE server" &&
  !strContains (strLower line) "tls: handshake" &&
  !strContains (strLower line) "handshake failure" &&
  !strContains (strLower line) "crypto_error" &&
  !strContains (strLower line) "remote error" &&
  !strContains (strLower line) "invalid endpoint" &&
  !strContains (strLower line) "login failed!" &&
  !strContains (strLower line) "failed to connect tunnel"

/-- Observable actions of `main` after the scan phase (main.go): optional
registration, the final `runSocks` run, and the fatal exit on its error. -/
inductive MainAct where
  | register
  | socksRun (runIdx : Nat)
  | exitErr (msg : String)
deriving DecidableEq

/-- Recognizer for supervised-run actions. -/
def isSocksRun : MainAct → Bool
  | .socksRun _ => true
  | _ => false

/-- The final phase of `main` (main.go: the `needRegister`/`runRegister`
block followed by the single `runSocks` call and `logErrorAndExit` on its
error).  `socksOutcome k` is the error, if any, of the `k`-th `runSocks`
invocation — an oracle; the code only ever performs invocation 0. -/
def mainFinalPhase (needReg : Bool) (socksOutcome : Nat → Option String) :
    List MainAct :=
  (if needReg then [MainAct.register] else []) ++ [MainAct.socksRun 0] ++
    (match socksOutcome 0 with
     | some e => [MainAct.exitErr ("SOCKS start failed: " ++ e)]
     | none => [])

/-- The four outcomes of `httpcheck.CheckWarpOverSocks` (warpcheck.go):
marker found, marker absent, HTTP-layer failure, connection-layer failure. -/
inductive WarpStatus where
  | statusOK
  | noWarp
  | httpFail
  | connFail
deriving DecidableEq

/-- Outcome of the start function's poll loop on the shared state. -/
inductive WaitOutcome where
  | connected
  | handshakeFailed
  | timedOut
deriving DecidableEq

/-- Environment of one invocation of the scan-mode start function: the
results of its effectful collaborators — the config write, the process
start, the poll loop over the shared `procState`, and the warp check with
its status and optional error. -/
structure StartEnv where
  writeErr : Option String
  startErr : Option String
  wait : WaitOutcome
  warp : WarpStatus
  warpErr : Option String
deriving DecidableEq

/-- Log events emitted by the start function that matter here: the
"warp check result" line (a Warn when the check returned an error, an Info
otherwise). -/
inductive StartLog where
  | warpChecked (status : WarpStatus) (isWarn : Bool)
deriving DecidableEq

/-- The `(stop, ok, err)` triple returned by one invocation of the scan-mode
start function, plus its log trace. -/
structure StartOut where
  hasStop : Bool
  ok : Bool
  err : Option String
  logs : List StartLog
deriving DecidableEq

/-- The scan-mode start function (the closure `startFn` in main.go passed to
`scanner.TryCandidates`): write the config (error → return nil stop), start
the child (error → return nil stop), poll the shared state until connected /
handshake failure / timeout, then — only when connected — run the warp check,
log its result, and return `(stop, ok, nil)` unchanged by it. -/
def startFnScan (env : StartEnv) : StartOut :=
  match env.writeErr with
  | some e => ⟨false, false, some e, []⟩
  | none =>
    match env.startErr with
    | some e => ⟨false, false, some e, []⟩
    | none =>
      match env.wait with
      | .handshakeFailed => ⟨true, false, some "handshake failure", []⟩
      | .timedOut => ⟨true, false, none, []⟩
      | .connected =>
        ⟨true, true, none, [StartLog.warpChecked env.warp env.warpErr.isSome]⟩

/-- Model of a Go `net.IP` as far as `addEndpointToConfig` observes it:
whether `To4()` is non-nil, and the text `String()` returns.  `net.ParseIP`
is modelled as an oracle `String → Option IPAddr`; the JSON configuration
object as a partial map from keys to values. -/
structure IPAddr where
  isV4 : Bool
  str : String
deriving DecidableEq

/-- The string surgery of `parseEndpoint` (main.go), on character lists:
splits the endpoint into the IP text and the port text.  `none` models the
"invalid IPv6 format" error (a `[` with no closing `]`). -/
def parseEndpointCore (cs : List Char) : Option (List Char × List Char) :=
  if cs.head? = some '[' then
    -- "[IPv6]:port": take up to "]", then an optional ":port"
    let t := cs.tail
    if ']' ∈ t then
      let ipStr := t.takeWhile (fun c => c ≠ ']')
      let rest := (t.dropWhile (fun c => c ≠ ']')).tail
      let port := if rest.head? = some ':' then rest.tail else []
      some (ipStr, port)
    else none
  else if 1 < (cs.filter (fun c => c = ':')).length then
    -- plain IPv6 without port
    some (cs, [])
  else if ':' ∈ cs then
    -- IPv4:port (strings.SplitN with limit 2)
    some (cs.takeWhile (fun c => c ≠ ':'), (cs.dropWhile (fun c => c ≠ ':')).tail)
  else
    -- IPv4 without port
    some (cs, [])

/-- `parseEndpoint` (main.go): returns the parsed IP and the port text, or
the error message. -/
def parseEndpoint (parseIP : String → Option IPAddr) (ep : String) :
    Except String (IPAddr × String) :=
  if ep = "" then Except.error "empty endpoint"
  else
    match parseEndpointCore ep.data with
    | none => Except.error "invalid IPv6 format"
    | some (ipCs, portCs) =>
      let ipStr := String.mk ipCs
      match parseIP ipStr with
      | none => Except.error ("invalid IP " ++ ipStr)
      | some ip => Except.ok (ip, String.mk portCs)

/-- The persisted configuration object: a partial map from JSON keys to
values. -/
def Config : Type := String → Option String

/-- `cfg[k] = v` (one JSON key assignment). -/
def setKey (cfg : Config) (k v : String) : Config :=
  fun q => if q = k then some v else cfg q

/-- `addEndpointToConfig` (main.go): parse the endpoint (a parse failure is
fatal in Go — modelled as the error case) and set only the endpoint keys of
the matching address family. -/
def addEndpointToConfig (parseIP : String → Option IPAddr) (cfg : Config)
    (endpoint : String) : Except String Config :=
  match parseEndpoint parseIP endpoint with
  | Except.error e => Except.error ("invalid endpoint: " ++ e)
  | Except.ok (ip, port) =>
    if ip.isV4 then
      let cfg1 := setKey cfg "endpoint_v4" ip.str
      let cfg2 := if port ≠ "" then setKey cfg1 "endpoint_v4_port" port else cfg1
      Except.ok cfg2
    else
      let cfg1 := setKey cfg "endpoint_v6" ip.str
      let cfg2 := if port ≠ "" then setKey cfg1 "endpoint_v6_port" port else cfg1
      Except.ok cfg2

/-- Model of `isNetworkOrBroadcast` (scanner.go): recompute network
(`ip & mask`) and broadcast (`network | ^mask`, complement within 32 bits)
from the tested address and compare.  IPv4 addresses are naturals below
`2^32` (the 4-byte form), IPv6 addresses naturals below `2^128`; a parsed
`*net.IPNet` is the masked network address plus the prefix mask
`2^w - 2^(w-p)`; `nextIP` is `+1` (wrapping modulo `2^128` in the 16-byte
form, while an IPv4 increment that leaves the 32-bit space makes `Contains`
fail through its length check, modelled by the `ip < 2^32` conjunct). -/
def isNetworkOrBroadcast (ip mask : Nat) : Bool :=
  let network := ip &&& mask
  let broadcast := network ||| ((2^32 - 1) ^^^ mask)
  ip == network || ip == broadcast

/-- The IPv4 host loop of `BuildCandidates`: start at `firstHost` (the
network address), step by `nextIP` while `Contains` holds, skipping network
and broadcast addresses. -/
def hostLoopV4 (mask network : Nat) : Nat → Nat → List Nat
  | _, 0 => []
  | ip, fuel + 1 =>
    if ip < 2^32 ∧ ip &&& mask = network then
      if isNetworkOrBroadcast ip mask then hostLoopV4 mask network (ip + 1) fuel
      else ip :: hostLoopV4 mask network (ip + 1) fuel
    else []

/-- IPv4 expansion of one CIDR with base address bits `base` and prefix
length `p`; the fuel `2^32 + 1` dominates every possible iteration count. -/
def expandV4 (base p : Nat) : List Nat :=
  hostLoopV4 (2^32 - 2^(32 - p)) (base &&& (2^32 - 2^(32 - p)))
    (base &&& (2^32 - 2^(32 - p))) (2^32 + 1)

/-- `const v6Cap = 1024` (scanner.go). -/
def v6Cap : Nat := 1024

/-- The IPv6 host loop of `BuildCandidates`: start at the network address,
step by `nextIP` (wrapping modulo `2^128`) while `Contains` holds and fewer
than `v6Cap` addresses were produced; no network/broadcast exclusion. -/
def hostLoopV6 (mask network : Nat) : Nat → Nat → List Nat
  | _, 0 => []
  | ip, remaining + 1 =>
    if ip &&& mask = network then
      ip :: hostLoopV6 mask network ((ip + 1) % 2^128) remaining
    else []

/-- IPv6 expansion of one CIDR, capped at `v6Cap` addresses. -/
def expandV6 (base p : Nat) : List Nat :=
  hostLoopV6 (2^128 - 2^(128 - p)) (base &&& (2^128 - 2^(128 - p)))
    (base &&& (2^128 - 2^(128 - p))) v6Cap

/-- A CIDR input as `net.ParseCIDR` and `isIPv4Net` classify it: malformed
(skipped with a warning), an IPv4 net (4-byte network address, i.e. a
dotted-quad CIDR), or an IPv6 net (16-byte network address that is not
IPv4-mapped).  `base` carries the address bits of the CIDR text, `p` the
prefix length. -/
inductive CIDR where
  | malformed
  | v4 (base p : Nat)
  | v6 (base p : Nat)

/-- Contribution of one entry of the IPv4 CIDR list (non-IPv4 nets and
malformed entries are skipped). -/
def expandCIDRv4 : CIDR → List Nat
  | .v4 base p => expandV4 base p
  | _ => []

/-- Contribution of one entry of the IPv6 CIDR list (IPv4 nets and malformed
entries are skipped). -/
def expandCIDRv6 : CIDR → List Nat
  | .v6 base p => expandV6 base p
  | _ => []

/-- `Any = iota; V4; V6` (scanner.go). -/
def Any : Nat := 0

/-- IPv4-only version filter. -/
def V4 : Nat := 1

/-- IPv6-only version filter. -/
def V6 : Nat := 2

/-- The hosts produced by `BuildCandidates` in order, each tagged with its
address family (`true` = IPv6): the IPv4 section first (when the filter
allows it), then the IPv6 section. -/
def hostsOf (ver : Nat) (v4CIDRs v6CIDRs : List CIDR) : List (Bool × Nat) :=
  (if ver = Any ∨ ver = V4 then
    v4CIDRs.flatMap (fun c => (expandCIDRv4 c).map (fun ip => (false, ip)))
  else []) ++
  (if ver = Any ∨ ver = V6 then
    v6CIDRs.flatMap (fun c => (expandCIDRv6 c).map (fun ip => (true, ip)))
  else [])

/-- `pickPort` (scanner.go): the single configured port, or — when several
are configured — the one selected by the random draw `r` (`rand.Intn`
modelled by an oracle value reduced modulo the list length). -/
def pickPort (ports : List String) (r : Nat) : String :=
  if ports.length == 1 then ports.headD "" else ports.getD (r % ports.length) ""

/-- Go `net.IP.String()` for a 4-byte address: dotted quad. -/
def ipv4String (ip : Nat) : String :=
  toString (ip / 2^24 % 256) ++ "." ++ toString (ip / 2^16 % 256) ++ "." ++
    toString (ip / 2^8 % 256) ++ "." ++ toString (ip % 256)

/-- Candidate formatting: `net.JoinHostPort(ip.String(), port)` for IPv4 (a
dotted quad has no colon, so no brackets are added) and
`fmt.Sprintf("[%s]:%s", ip.String(), port)` for IPv6.  `v6Str` is the
`net.IP.String()` oracle for 16-byte addresses. -/
def fmtCandidate (v6Str : Nat → String) : Bool × Nat → String → String
  | (false, ip), port => ipv4String ip ++ ":" ++ port
  | (true, ip), port => "[" ++ v6Str ip ++ "]:" ++ port

/-- Model of `BuildCandidates` (scanner.go): default the port list to
`["443"]`, expand the CIDR lists under the version filter, and format each
host with a port picked per candidate; `rnd k` is the oracle for the random
draw of the `k`-th `pickPort` call (Go draws once per appended candidate;
with a single port no draw happens and the oracle is ignored). -/
def BuildCandidates (ver : Nat) (v4CIDRs v6CIDRs : List CIDR) (ports : List String)
    (rnd : Nat → Nat) (v6Str : Nat → String) : List String :=
  let ps := if ports.isEmpty then ["443"] else ports
  (hostsOf ver v4CIDRs v6CIDRs).enum.map
    (fun kh => fmtCandidate v6Str kh.2 (pickPort ps (rnd kh.1)))

/-! ### Trace lemmas for the orchestration loop -/

theorem mem_stepEvents_idx (ping : Bool) (probe : Nat → String → Bool)
    (startFn : Nat → String → StartRes) (i : Nat) (ep : String) :
    ∀ e ∈ stepEvents ping probe startFn i ep, evIdx e = i := by
  intro e he
  unfold stepEvents at he
  split at he
  · simp only [List.mem_singleton] at he
    subst he; rfl
  · simp only [List.mem_cons] at he
    rcases he with rfl | he
    · rfl
    · split at he
      · simp only [List.mem_singleton] at he; subst he; rfl
      · simp at he

theorem count_stop_stepEvents (ping : Bool) (probe : Nat → String → Bool)
    (startFn : Nat → String → StartRes) (i : Nat) (ep : String) :
    (stepEvents ping probe startFn i ep).count (Ev.stop i) =
      if stepKind ping probe startFn i ep = StepKind.skipped then 0
      else if (startFn i ep).hasStop then 1 else 0 := by
  unfold stepEvents
  split
  · simp [List.count_cons]
  · split <;> simp_all [List.count_cons]

theorem start_mem_stepEvents (ping : Bool) (probe : Nat → String → Bool)
    (startFn : Nat → String → StartRes) (i : Nat) (ep : String) :
    Ev.start i ∈ stepEvents ping probe startFn i ep ↔
      stepKind ping probe startFn i ep ≠ StepKind.skipped := by
  unfold stepEvents
  split <;> rename_i h
  · simp [h]
  · simp [h]

theorem tryLoop_idx_bounds (ping : Bool) (probe : Nat → String → Bool)
    (startFn : Nat → String → StartRes) :
    ∀ (xs : List String) (n : Nat) (e : Ev),
      e ∈ (tryLoop ping probe startFn (List.enumFrom n xs)).2 →
      n ≤ evIdx e ∧ evIdx e < n + xs.length := by
  intro xs
  induction xs with
  | nil => intro n e he; simp [tryLoop] at he
  | cons x rest ih =>
    intro n e he
    simp only [List.enumFrom, tryLoop] at he
    split at he
    · have := mem_stepEvents_idx ping probe startFn n x e he
      simp [this]
    · simp only [List.mem_append] at he
      rcases he with he | he
      · have := mem_stepEvents_idx ping probe startFn n x e he
        simp [this]
      · have := ih (n + 1) e he
        constructor <;> [omega; skip]
        simp only [List.length_cons]
        omega

theorem tryLoop_count_stop (ping : Bool) (probe : Nat → String → Bool)
    (startFn : Nat → String → StartRes) :
    ∀ (xs : List String) (n i : Nat),
      Ev.start i ∈ (tryLoop ping probe startFn (List.enumFrom n xs)).2 →
      (tryLoop ping probe startFn (List.enumFrom n xs)).2.count (Ev.stop i) =
        if (startFn i (xs.getD (i - n) "")).hasStop then 1 else 0 := by
  intro xs
  induction xs with
  | nil => intro n i h; simp [tryLoop] at h
  | cons x rest ih =>
    intro n i h
    by_cases hin : i = n
    · subst hin
      -- the head iteration is the one that started candidate i
      have hidx : ∀ e ∈ (tryLoop ping probe startFn (List.enumFrom (i + 1) rest)).2,
          evIdx e ≠ i := by
        intro e he
        have := tryLoop_idx_bounds ping probe startFn rest (i + 1) e he
        omega
      have hstop_rest : (tryLoop ping probe startFn (List.enumFrom (i + 1) rest)).2.count
          (Ev.stop i) = 0 := by
        rw [List.count_eq_zero]
        intro hmem
        exact hidx _ hmem rfl
      have hstart_head : Ev.start i ∈ stepEvents ping probe startFn i x →
          stepKind ping probe startFn i x ≠ StepKind.skipped :=
        (start_mem_stepEvents ping probe startFn i x).mp
      simp only [List.enumFrom, tryLoop] at h ⊢
      by_cases hk : stepKind ping probe startFn i x = StepKind.success
      · rw [if_pos hk] at h ⊢
        have hk' := hstart_head h
        rw [count_stop_stepEvents, if_neg hk']
        simp
      · rw [if_neg hk] at h ⊢
        simp only [List.mem_append] at h
        have hns : stepKind ping probe startFn i x ≠ StepKind.skipped := by
          rcases h with h | h
          · exact hstart_head h
          · exfalso
            have := tryLoop_idx_bounds ping probe startFn rest (i + 1) _ h
            simp [evIdx] at this
        rw [List.count_append, count_stop_stepEvents, if_neg hns, hstop_rest]
        simp
    · -- candidate i was started by a later iteration
      have hhead : ∀ e ∈ stepEvents ping probe startFn n x, evIdx e ≠ i := by
        intro e he
        rw [mem_stepEvents_idx ping probe startFn n x e he]
        omega
      simp only [List.enumFrom, tryLoop] at h ⊢
      by_cases hk : stepKind ping probe startFn n x = StepKind.success
      · rw [if_pos hk] at h ⊢
        exact absurd rfl (hhead _ h)
      · rw [if_neg hk] at h ⊢
        simp only [List.mem_append] at h
        rcases h with h | h
        · exact absurd rfl (hhead _ h)
        · have hge : n + 1 ≤ i := by
            have := tryLoop_idx_bounds ping probe startFn rest (n + 1) _ h
            simp only [evIdx] at this
            omega
          have hzero : (stepEvents ping probe startFn n x).count (Ev.stop i) = 0 := by
            rw [List.count_eq_zero]
            intro hmem
            exact hhead _ hmem rfl
          rw [List.count_append, hzero, ih (n + 1) i h]
          have harith : i - n = (i - (n + 1)) + 1 := by omega
          simp [harith]

theorem snd_tryCandidates (candidates : List String) (maxToTry : Int) (ping : Bool)
    (probe : Nat → String → Bool) (startFn : Nat → String → StartRes) :
    (TryCandidates candidates maxToTry ping probe startFn).2 =
      (tryLoop ping probe startFn (List.enumFrom 0
        (candidates.take (effectiveMax maxToTry candidates.length)))).2 := by
  unfold TryCandidates
  cases h : (tryLoop ping probe startFn (List.enumFrom 0
      (candidates.take (effectiveMax maxToTry candidates.length)))).1 <;> simp [h]

theorem fst_tryCandidates_ok (candidates : List String) (maxToTry : Int) (ping : Bool)
    (probe : Nat → String → Bool) (startFn : Nat → String → StartRes) (ep : String) :
    (TryCandidates candidates maxToTry ping probe startFn).1 = Except.ok ep ↔
      (tryLoop ping probe startFn (List.enumFrom 0
        (candidates.take (effectiveMax maxToTry candidates.length)))).1 = some ep := by
  unfold TryCandidates
  cases h : (tryLoop ping probe startFn (List.enumFrom 0
      (candidates.take (effectiveMax maxToTry candidates.length)))).1 <;> simp [h]

theorem fst_tryCandidates_error (candidates : List String) (maxToTry : Int)
    (ping : Bool) (probe : Nat → String → Bool) (startFn : Nat → String → StartRes)
    (msg : String) :
    (TryCandidates candidates maxToTry ping probe startFn).1 = Except.error msg ↔
      (tryLoop ping probe startFn (List.enumFrom 0
        (candidates.take (effectiveMax maxToTry candidates.length)))).1 = none ∧
      msg = "no viable endpoint found (tried " ++
        toString (effectiveMax maxToTry candidates.length) ++ ")" := by
  unfold TryCandidates
  cases h : (tryLoop ping probe startFn (List.enumFrom 0
      (candidates.take (effectiveMax maxToTry candidates.length)))).1 <;>
    simp [h, eq_comm]

/-- C1: in `TryCandidates`, for every attempted candidate (one on which the
start function was invoked, witnessed by a `start i` event in the trace), the
stop-action returned by that invocation is invoked exactly once when the
start function returned a non-nil stop-action — and zero times when it
returned nil — before the orchestrator moves on or returns, on every path
(start-function error, success, and not-ready). -/
theorem tryCandidates_stop_action_exactly_once (candidates : List String)
    (maxToTry : Int) (ping : Bool) (probe : Nat → String → Bool)
    (startFn : Nat → String → StartRes) (i : Nat)
    (h : Ev.start i ∈ (TryCandidates candidates maxToTry ping probe startFn).2) :
    (TryCandidates candidates maxToTry ping probe startFn).2.count (Ev.stop i) =
      if (startFn i (candidates.getD i "")).hasStop then 1 else 0 := by
  rw [snd_tryCandidates] at h ⊢
  rw [tryLoop_count_stop ping probe startFn _ 0 i h]
  have hbound := tryLoop_idx_bounds ping probe startFn _ 0 _ h
  simp only [evIdx] at hbound
  have hget : (candidates.take (effectiveMax maxToTry candidates.length)).getD (i - 0) "" =
      candidates.getD i "" := by
    simp only [Nat.sub_zero, List.getD_eq_getElem?_getD, List.getElem?_take]
    rw [if_pos]
    rw [List.length_take] at hbound
    omega
  rw [hget]

/-- Witness for C1: two candidates, precheck disabled, a start function that
never reports ready but always returns a stop-action; candidate index 1 is
attempted and its stop-action is invoked exactly once. -/
theorem tryCandidates_stop_action_exactly_once_witness :
    Ev.start 1 ∈ (TryCandidates ["a", "b"] 5 false (fun _ _ => true)
        (fun _ _ => ⟨true, false, none⟩)).2 ∧
      (TryCandidates ["a", "b"] 5 false (fun _ _ => true)
        (fun _ _ => ⟨true, false, none⟩)).2.count (Ev.stop 1) = 1 :=
  ⟨by decide,
    (tryCandidates_stop_action_exactly_once ["a", "b"] 5 false (fun _ _ => true)
      (fun _ _ => ⟨true, false, none⟩) 1 (by decide)).trans (by decide)⟩

theorem tryLoop_first_success (ping : Bool) (probe : Nat → String → Bool)
    (startFn : Nat → String → StartRes) :
    ∀ (xs : List String) (n : Nat) (ep : String),
      (tryLoop ping probe startFn (List.enumFrom n xs)).1 = some ep →
      ∃ k, k < xs.length ∧ xs.getD k "" = ep ∧
        stepKind ping probe startFn (n + k) ep = StepKind.success ∧
        (∀ k' < k, stepKind ping probe startFn (n + k') (xs.getD k' "") ≠ StepKind.success) ∧
        (∀ j, Ev.start j ∈ (tryLoop ping probe startFn (List.enumFrom n xs)).2 →
          j ≤ n + k) := by
  intro xs
  induction xs with
  | nil => intro n ep h; simp [tryLoop] at h
  | cons x rest ih =>
    intro n ep h
    simp only [List.enumFrom, tryLoop] at h ⊢
    by_cases hk : stepKind ping probe startFn n x = StepKind.success
    · rw [if_pos hk] at h ⊢
      obtain rfl : x = ep := by simpa using h
      refine ⟨0, by simp, rfl, by simpa using hk, fun k' hk' => by omega, ?_⟩
      intro j hj
      have := mem_stepEvents_idx ping probe startFn n x _ hj
      simp only [evIdx] at this
      omega
    · rw [if_neg hk] at h ⊢
      obtain ⟨k, hlen, hget, hsucc, hbefore, hafter⟩ := ih (n + 1) ep h
      refine ⟨k + 1, by simpa using Nat.succ_lt_succ hlen, by simpa using hget, ?_, ?_, ?_⟩
      · have harith : n + (k + 1) = (n + 1) + k := by omega
        rw [harith]; exact hsucc
      · intro k' hk'
        cases k' with
        | zero => simpa using hk
        | succ k'' =>
          have harith : n + (k'' + 1) = (n + 1) + k'' := by omega
          rw [harith]
          simpa using hbefore k'' (by omega)
      · intro j hj
        simp only [List.mem_append] at hj
        rcases hj with hj | hj
        · have := mem_stepEvents_idx ping probe startFn n x _ hj
          simp only [evIdx] at this
          omega
        · have := hafter j hj; omega

/-- C2: whenever `TryCandidates` returns an endpoint, that endpoint is the
first candidate, in list order among those iterated, whose start function
reported success (earlier candidates were precheck-skipped, errored, or not
ready), and after the successful candidate the start function is invoked on
no further candidate (every `start` event in the trace is at an index ≤ the
selected one). -/
theorem tryCandidates_returns_first_success (candidates : List String)
    (maxToTry : Int) (ping : Bool) (probe : Nat → String → Bool)
    (startFn : Nat → String → StartRes) (ep : String)
    (h : (TryCandidates candidates maxToTry ping probe startFn).1 = Except.ok ep) :
    ∃ i, i < effectiveMax maxToTry candidates.length ∧ candidates.getD i "" = ep ∧
      stepKind ping probe startFn i ep = StepKind.success ∧
      (∀ j < i, stepKind ping probe startFn j (candidates.getD j "") ≠ StepKind.success) ∧
      (∀ j, Ev.start j ∈ (TryCandidates candidates maxToTry ping probe startFn).2 →
        j ≤ i) := by
  rw [fst_tryCandidates_ok] at h
  set m := effectiveMax maxToTry candidates.length with hm
  obtain ⟨k, hlen, hget, hsucc, hbefore, hafter⟩ :=
    tryLoop_first_success ping probe startFn (candidates.take m) 0 ep h
  rw [List.length_take] at hlen
  have hgetD : ∀ j, j < m → (candidates.take m).getD j "" = candidates.getD j "" := by
    intro j hj
    simp only [List.getD_eq_getElem?_getD, List.getElem?_take]
    rw [if_pos hj]
  refine ⟨k, by omega, ?_, by simpa using hsucc, ?_, ?_⟩
  · rw [← hgetD k (by omega)]; exact hget
  · intro j hj
    rw [← hgetD j (by omega)]
    simpa using hbefore j hj
  · intro j hj
    rw [snd_tryCandidates] at hj
    simpa using hafter j hj

/-- Witness for C2: three candidates, the start function succeeds exactly at
index 1; `TryCandidates` selects "b" and the existential holds. -/
theorem tryCandidates_returns_first_success_witness :
    ∃ i, i < effectiveMax 30 (["a", "b", "c"] : List String).length ∧
      (["a", "b", "c"] : List String).getD i "" = "b" ∧
      stepKind false (fun _ _ => true)
        (fun i _ => if i == 1 then ⟨true, true, none⟩ else ⟨true, false, none⟩) i "b" =
        StepKind.success ∧
      (∀ j < i, stepKind false (fun _ _ => true)
        (fun i _ => if i == 1 then ⟨true, true, none⟩ else ⟨true, false, none⟩) j
          ((["a", "b", "c"] : List String).getD j "") ≠ StepKind.success) ∧
      (∀ j, Ev.start j ∈ (TryCandidates ["a", "b", "c"] 30 false (fun _ _ => true)
        (fun i _ => if i == 1 then ⟨true, true, none⟩ else ⟨true, false, none⟩)).2 →
        j ≤ i) :=
  tryCandidates_returns_first_success ["a", "b", "c"] 30 false (fun _ _ => true)
    (fun i _ => if i == 1 then ⟨true, true, none⟩ else ⟨true, false, none⟩) "b" (by rfl)

theorem countP_start_stepEvents (ping : Bool) (probe : Nat → String → Bool)
    (startFn : Nat → String → StartRes) (i : Nat) (ep : String) :
    (stepEvents ping probe startFn i ep).countP isStartEv ≤ 1 := by
  unfold stepEvents
  split
  · simp [List.countP_cons, isStartEv]
  · split <;> simp [List.countP_cons, isStartEv]

theorem tryLoop_start_count (ping : Bool) (probe : Nat → String → Bool)
    (startFn : Nat → String → StartRes) :
    ∀ l : List (Nat × String),
      (tryLoop ping probe startFn l).2.countP isStartEv ≤ l.length := by
  intro l
  induction l with
  | nil => simp [tryLoop]
  | cons p rest ih =>
    obtain ⟨i, ep⟩ := p
    simp only [tryLoop, List.length_cons]
    by_cases hk : stepKind ping probe startFn i ep = StepKind.success
    · rw [if_pos hk]
      dsimp only
      have := countP_start_stepEvents ping probe startFn i ep
      omega
    · rw [if_neg hk]
      dsimp only
      simp only [List.countP_append]
      have := countP_start_stepEvents ping probe startFn i ep
      omega

/-- C3: the start function is invoked at most `effectiveMax maxToTry
len(candidates)` times; a cap that is zero, negative, or larger than the
candidate list is treated as the full candidate count; a positive cap bounds
the invocations by `min cap len(candidates)`; and when no candidate
succeeds, the returned error is the "no viable endpoint" message naming how
many candidates were tried. -/
theorem tryCandidates_cap (candidates : List String) (maxToTry : Int) (ping : Bool)
    (probe : Nat → String → Bool) (startFn : Nat → String → StartRes) :
    (TryCandidates candidates maxToTry ping probe startFn).2.countP isStartEv ≤
        effectiveMax maxToTry candidates.length ∧
      ((maxToTry ≤ 0 ∨ maxToTry > (candidates.length : Int)) →
        effectiveMax maxToTry candidates.length = candidates.length) ∧
      (0 < maxToTry →
        (TryCandidates candidates maxToTry ping probe startFn).2.countP isStartEv ≤
          min maxToTry.toNat candidates.length) ∧
      (∀ msg, (TryCandidates candidates maxToTry ping probe startFn).1 =
          Except.error msg →
        msg = "no viable endpoint found (tried " ++
          toString (effectiveMax maxToTry candidates.length) ++ ")") := by
  have hcount : (TryCandidates candidates maxToTry ping probe startFn).2.countP isStartEv ≤
      effectiveMax maxToTry candidates.length := by
    rw [snd_tryCandidates]
    have h1 := tryLoop_start_count ping probe startFn
      (List.enumFrom 0 (candidates.take (effectiveMax maxToTry candidates.length)))
    have h2 : (List.enumFrom 0
        (candidates.take (effectiveMax maxToTry candidates.length))).length ≤
        effectiveMax maxToTry candidates.length := by
      rw [List.enumFrom_length, List.length_take]
      omega
    omega
  refine ⟨hcount, ?_, ?_, ?_⟩
  · intro h
    unfold effectiveMax
    rw [if_pos h]
  · intro hpos
    have hle : effectiveMax maxToTry candidates.length ≤
        min maxToTry.toNat candidates.length := by
      unfold effectiveMax
      split <;> rename_i hcase
      · rcases hcase with hcase | hcase <;> omega
      · push_neg at hcase
        omega
    omega
  · intro msg h
    exact ((fst_tryCandidates_error candidates maxToTry ping probe startFn msg).mp h).2

/-- Witness for C3: a negative cap over two candidates is treated as the full
count; the start function (never successful) is invoked at most twice and the
exhaustion error names two tried candidates. -/
theorem tryCandidates_cap_witness :
    (TryCandidates ["a", "b"] (-1) false (fun _ _ => true)
        (fun _ _ => ⟨true, false, none⟩)).2.countP isStartEv ≤ 2 ∧
      "no viable endpoint found (tried 2)" = "no viable endpoint found (tried " ++
        toString (effectiveMax (-1) (["a", "b"] : List String).length) ++ ")" :=
  ⟨Nat.le_trans (tryCandidates_cap ["a", "b"] (-1) false (fun _ _ => true)
      (fun _ _ => ⟨true, false, none⟩)).1 (by decide),
    (tryCandidates_cap ["a", "b"] (-1) false (fun _ _ => true)
      (fun _ _ => ⟨true, false, none⟩)).2.2.2 _ (by rfl)⟩

theorem handleLine_pk_persist (limit : Nat) (st : ProcState) (line : String)
    (h : st.privateKeyErr = true) : (handleLine limit st line).privateKeyErr = true := by
  simp only [handleLine]
  split_ifs <;> simp [h]

theorem handleLine_pk_set (limit : Nat) (st : ProcState) (line : String)
    (h : pkMarkerLine line = true) : (handleLine limit st line).privateKeyErr = true := by
  unfold pkMarkerLine at h
  simp only [Bool.and_eq_true, Bool.not_eq_true'] at h
  obtain ⟨⟨⟨⟨⟨⟨⟨⟨h1, h2⟩, h3⟩, h4⟩, h5⟩, h6⟩, h7⟩, h8⟩, h9⟩ := h
  simp [handleLine, h1, h2, h3, h4, h5, h6, h7, h8, h9]

theorem handleLines_foldl_pk (limit : Nat) :
    ∀ (lines : List String) (st : ProcState),
      ((∃ l ∈ lines, pkMarkerLine l = true) ∨ st.privateKeyErr = true) →
      (lines.foldl (handleLine limit) st).privateKeyErr = true := by
  intro lines
  induction lines with
  | nil =>
    intro st h
    rcases h with ⟨l, hl, _⟩ | h
    · simp at hl
    · exact h
  | cons x rest ih =>
    intro st h
    simp only [List.foldl_cons]
    rcases h with ⟨l, hl, hpk⟩ | h
    · rcases List.mem_cons.mp hl with rfl | hl
      · exact ih _ (Or.inr (handleLine_pk_set limit st l hpk))
      · exact ih _ (Or.inl ⟨l, hl, hpk⟩)
    · exact ih _ (Or.inr (handleLine_pk_persist limit st x h))

/-- C6 (counterexample to the claim as stated): a stream whose single line
contains the private-key marker but also the handshake marker
"remote error"; the per-line switch matches the handshake case first, so the
run is classified as a handshake failure, not as a private-key error, even
though the combined output contains a private-key marker. -/
theorem classifyExit_pk_marker_counterexample :
    strContains (strLower "remote error: failed to get private key")
        "failed to get private key" = true ∧
      classifyExit (handleLines 3 initState
          ["remote error: failed to get private key"]) (some "exit status 1") =
        some "handshake failure" ∧
      (some "handshake failure" : Option String) ≠ some "failed to get private key" :=
  ⟨by decide, by decide, by decide⟩

/-- C6 (amended): the final error is chosen with deterministic priority —
private-key error if that flag is set, otherwise endpoint-invalid, otherwise
handshake failure, otherwise the raw exit error; and an output stream
containing a line whose first matching marker is the private-key marker (the
line contains that marker and none of the earlier-checked markers) yields a
private-key-classified error even if other markers appear on other lines. -/
theorem classifyExit_priority (st : ProcState) (exitErr : Option String)
    (limit : Int) (st0 : ProcState) (lines : List String) :
    (st.privateKeyErr = true → classifyExit st exitErr = some "failed to get private key") ∧
      (st.privateKeyErr = false → st.endpointErr = true →
        classifyExit st exitErr = some "failed to set endpoint") ∧
      (st.privateKeyErr = false → st.endpointErr = false → st.handshakeFail = true →
        classifyExit st exitErr = some "handshake failure") ∧
      (st.privateKeyErr = false → st.endpointErr = false → st.handshakeFail = false →
        classifyExit st exitErr = exitErr) ∧
      ((∃ l ∈ lines, pkMarkerLine l = true) →
        classifyExit (handleLines limit st0 lines) exitErr =
          some "failed to get private key") := by
  refine ⟨?_, ?_, ?_, ?_, ?_⟩
  · intro h1; simp [classifyExit, h1]
  · intro h1 h2; simp [classifyExit, h1, h2]
  · intro h1 h2 h3; simp [classifyExit, h1, h2, h3]
  · intro h1 h2 h3; simp [classifyExit, h1, h2, h3]
  · intro h
    have hpk : (handleLines limit st0 lines).privateKeyErr = true := by
      unfold handleLines
      exact handleLines_foldl_pk _ lines st0 (Or.inl h)
    simp [classifyExit, hpk]

/-- Witness for the amended C6: a stream with a handshake-marker line and a
clean private-key line is classified as a private-key error (the private-key
flag wins over the handshake flag also set by the first line). -/
theorem classifyExit_priority_witness :
    classifyExit (handleLines 3 initState
        ["tls: handshake error(crypto_error)", "failed to get private key"])
      (some "exit status 1") = some "failed to get private key" :=
  (classifyExit_priority initState (some "exit status 1") 3 initState
      ["tls: handshake error(crypto_error)", "failed to get private key"]).2.2.2.2
    ⟨"failed to get private key", by decide, by decide⟩

/-- C7: the code performs no retry after a private-key failure of the final
supervised run.  With registration not needed and the final run failing with
the private-key error, `main` performs exactly one supervised run, performs
no (re-)registration at all, and exits with the fatal error — contradicting
the claimed re-register-and-retry-once behaviour (which the project README
also documents). -/
theorem mainFinalPhase_no_retry :
    mainFinalPhase false (fun _ => some "failed to get private key") =
        [MainAct.socksRun 0,
          MainAct.exitErr "SOCKS start failed: failed to get private key"] ∧
      (mainFinalPhase false (fun _ => some "failed to get private key")).countP
          isSocksRun = 1 ∧
      (mainFinalPhase false (fun _ => some "failed to get private key")).count
          MainAct.register = 0 :=
  ⟨rfl, by decide, by decide⟩

/-- C8: for every candidate on which the subprocess reported connected, the
start function returns success — a non-nil stop-action, ok = true and a nil
error — regardless of the warp-check outcome: each of the four warp-check
results, with or without an error, is only logged and never changes the
returned values or vetoes the chosen candidate. -/
theorem startFn_warp_check_observational (env : StartEnv)
    (h1 : env.writeErr = none) (h2 : env.startErr = none)
    (h3 : env.wait = WaitOutcome.connected) :
    (startFnScan env).hasStop = true ∧ (startFnScan env).ok = true ∧
      (startFnScan env).err = none ∧
      (startFnScan env).logs = [StartLog.warpChecked env.warp env.warpErr.isSome] := by
  simp [startFnScan, h1, h2, h3]

/-- Witness for C8: a connected candidate whose warp check failed at the
HTTP layer still yields a successful start-function return, with the failure
only logged (as a Warn). -/
theorem startFn_warp_check_observational_witness :
    (startFnScan ⟨none, none, WaitOutcome.connected, WarpStatus.httpFail,
        some "unexpected status code: 403"⟩).hasStop = true ∧
      (startFnScan ⟨none, none, WaitOutcome.connected, WarpStatus.httpFail,
        some "unexpected status code: 403"⟩).ok = true ∧
      (startFnScan ⟨none, none, WaitOutcome.connected, WarpStatus.httpFail,
        some "unexpected status code: 403"⟩).err = none ∧
      (startFnScan ⟨none, none, WaitOutcome.connected, WarpStatus.httpFail,
        some "unexpected status code: 403"⟩).logs =
        [StartLog.warpChecked WarpStatus.httpFail
          (some "unexpected status code: 403").isSome] :=
  startFn_warp_check_observational
    ⟨none, none, WaitOutcome.connected, WarpStatus.httpFail,
      some "unexpected status code: 403"⟩ rfl rfl rfl

/-- C9: the config rewrite performed for each candidate attempt and for the
final run modifies only the endpoint keys of the address family of the
endpoint being set: for an IPv4 endpoint only `endpoint_v4` /
`endpoint_v4_port` may change, for an IPv6 endpoint only `endpoint_v6` /
`endpoint_v6_port`; every other key of the loaded configuration keeps its
value. -/
theorem addEndpointToConfig_frame (parseIP : String → Option IPAddr)
    (cfg : Config) (ep : String) (cfg' : Config)
    (h : addEndpointToConfig parseIP cfg ep = Except.ok cfg') :
    ∃ ip port, parseEndpoint parseIP ep = Except.ok (ip, port) ∧
      (ip.isV4 = true →
        ∀ k, k ≠ "endpoint_v4" → k ≠ "endpoint_v4_port" → cfg' k = cfg k) ∧
      (ip.isV4 = false →
        ∀ k, k ≠ "endpoint_v6" → k ≠ "endpoint_v6_port" → cfg' k = cfg k) := by
  unfold addEndpointToConfig at h
  cases hp : parseEndpoint parseIP ep with
  | error e => rw [hp] at h; simp at h
  | ok pair =>
    obtain ⟨ip, port⟩ := pair
    rw [hp] at h
    dsimp only at h
    refine ⟨ip, port, rfl, ?_, ?_⟩
    · intro hv4 k hk1 hk2
      rw [hv4] at h
      simp only [if_true] at h
      by_cases hport : port ≠ ""
      · rw [if_pos hport] at h
        obtain rfl : setKey (setKey cfg "endpoint_v4" ip.str) "endpoint_v4_port" port = cfg' := by
          simpa using h
        simp [setKey, hk1, hk2]
      · rw [if_neg hport] at h
        obtain rfl : setKey cfg "endpoint_v4" ip.str = cfg' := by simpa using h
        simp [setKey, hk1]
    · intro hv4 k hk1 hk2
      rw [hv4] at h
      simp only [Bool.false_eq_true, if_false] at h
      by_cases hport : port ≠ ""
      · rw [if_pos hport] at h
        obtain rfl : setKey (setKey cfg "endpoint_v6" ip.str) "endpoint_v6_port" port = cfg' := by
          simpa using h
        simp [setKey, hk1, hk2]
      · rw [if_neg hport] at h
        obtain rfl : setKey cfg "endpoint_v6" ip.str = cfg' := by simpa using h
        simp [setKey, hk1]

/-- Witness for C9: rewriting an IPv4 endpoint into a config that holds a
registration key leaves that key unchanged. -/
theorem addEndpointToConfig_frame_witness :
    ∃ ip port,
      parseEndpoint
          (fun s => if s = "1.2.3.4" then some ⟨true, "1.2.3.4"⟩ else none)
          "1.2.3.4:443" = Except.ok (ip, port) ∧
        (ip.isV4 = true →
          ∀ k, k ≠ "endpoint_v4" → k ≠ "endpoint_v4_port" →
            (addEndpointToConfig
                (fun s => if s = "1.2.3.4" then some ⟨true, "1.2.3.4"⟩ else none)
                (fun q => if q = "private_key" then some "abc" else none)
                "1.2.3.4:443").toOption.getD (fun _ => none) k =
              (fun q => if q = "private_key" then some "abc" else none) k) ∧
        (ip.isV4 = false →
          ∀ k, k ≠ "endpoint_v6" → k ≠ "endpoint_v6_port" →
            (addEndpointToConfig
                (fun s => if s = "1.2.3.4" then some ⟨true, "1.2.3.4"⟩ else none)
                (fun q => if q = "private_key" then some "abc" else none)
                "1.2.3.4:443").toOption.getD (fun _ => none) k =
              (fun q => if q = "private_key" then some "abc" else none) k) := by
  have h := addEndpointToConfig_frame
    (fun s => if s = "1.2.3.4" then some ⟨true, "1.2.3.4"⟩ else none)
    (fun q => if q = "private_key" then some "abc" else none) "1.2.3.4:443"
    ((addEndpointToConfig
        (fun s => if s = "1.2.3.4" then some ⟨true, "1.2.3.4"⟩ else none)
        (fun q => if q = "private_key" then some "abc" else none)
        "1.2.3.4:443").toOption.getD (fun _ => none)) (by rfl)
  exact h

/-! ### Arithmetic of masks -/

theorem maskOf_repr (w q : Nat) (h : q ≤ w) : 2^w - 2^q = 2^q * (2^(w-q) - 1) := by
  have h2 : (2:Nat)^w = 2^q * 2^(w-q) := by
    rw [← pow_add]; congr 1; omega
  rw [h2, Nat.mul_sub, mul_one]

theorem and_maskOf (w q ip : Nat) (hq : q ≤ w) (hip : ip < 2^w) :
    ip &&& (2^w - 2^q) = 2^q * (ip / 2^q) := by
  apply Nat.eq_of_testBit_eq
  intro j
  rw [Nat.testBit_and, maskOf_repr w q hq, Nat.testBit_mul_pow_two,
    Nat.testBit_mul_pow_two, Nat.testBit_two_pow_sub_one,
    ← Nat.shiftRight_eq_div_pow, Nat.testBit_shiftRight]
  by_cases hj : q ≤ j
  · have hqj : q + (j - q) = j := by omega
    rw [hqj]
    by_cases hw : j < w
    · simp [hj, Nat.lt_sub_iff_add_lt]
      omega
    · have : ip.testBit j = false := Nat.testBit_lt_two_pow
        (lt_of_lt_of_le hip (Nat.pow_le_pow_right (by norm_num) (by omega)))
      simp [this]
  · simp [hj]

theorem xor_ones_maskOf (w q : Nat) (hq : q ≤ w) :
    (2^w - 1) ^^^ (2^w - 2^q) = 2^q - 1 := by
  apply Nat.eq_of_testBit_eq
  intro j
  rw [Nat.testBit_xor, maskOf_repr w q hq, Nat.testBit_mul_pow_two,
    Nat.testBit_two_pow_sub_one, Nat.testBit_two_pow_sub_one,
    Nat.testBit_two_pow_sub_one]
  by_cases h1 : j < q <;> by_cases h2 : j < w <;> simp [h1, h2] <;> omega

/-- Characterisation of `Contains` under a prefix mask: an address below
`2^w` masks to the (aligned) network address exactly when it lies in the
net's range. -/
theorem contains_char (w q : Nat) (hq : q ≤ w) (network : Nat)
    (hnet : network &&& (2^w - 2^q) = network) (hw : network < 2^w)
    (ip : Nat) (hip : ip < 2^w) :
    (ip &&& (2^w - 2^q) = network) ↔ (network ≤ ip ∧ ip < network + 2^q) := by
  rw [and_maskOf w q ip hq hip]
  have hnq : network = 2^q * (network / 2^q) := by
    conv_lhs => rw [← hnet, and_maskOf w q network hq hw]
  have hP : 0 < 2^q := Nat.pos_pow_of_pos q (by norm_num)
  constructor
  · intro h
    have h1 := Nat.div_add_mod ip (2^q)
    have h2 := Nat.mod_lt ip hP
    omega
  · intro h
    have hd : ip / 2^q = network / 2^q := by
      have h1 := Nat.div_add_mod ip (2^q)
      have h2 := Nat.mod_lt ip hP
      rcases Nat.lt_trichotomy (ip / 2^q) (network / 2^q) with hlt | heq | hgt
      · exfalso
        have hm : 2^q * (ip / 2^q + 1) ≤ 2^q * (network / 2^q) :=
          Nat.mul_le_mul_left _ hlt
        rw [Nat.mul_add, Nat.mul_one] at hm
        omega
      · exact heq
      · exfalso
        have hm : 2^q * (network / 2^q + 1) ≤ 2^q * (ip / 2^q) :=
          Nat.mul_le_mul_left _ hgt
        rw [Nat.mul_add, Nat.mul_one] at hm
        omega
    rw [hd]
    exact hnq.symm

theorem network_le_pow (w q base : Nat) (hq : q ≤ w) (hb : base < 2^w) :
    (base &&& (2^w - 2^q)) + 2^q ≤ 2^w := by
  rw [and_maskOf w q base hq hb]
  have hd : base / 2^q < 2^(w-q) := by
    rw [Nat.div_lt_iff_lt_mul (Nat.pos_pow_of_pos q (by norm_num))]
    calc base < 2^w := hb
    _ = 2^(w-q) * 2^q := by rw [← pow_add]; congr 1; omega
  calc 2^q * (base / 2^q) + 2^q = 2^q * (base / 2^q + 1) := by ring
  _ ≤ 2^q * 2^(w-q) := Nat.mul_le_mul_left _ hd
  _ = 2^w := by rw [← pow_add]; congr 1; omega

/-- Inside the net, `isNetworkOrBroadcast` tests equality with the network
address and with `network + (2^(32-p) - 1)` (the broadcast address). -/
theorem isNB_char (q : Nat) (hq : q ≤ 32) (network ip : Nat)
    (hnet : network &&& (2^32 - 2^q) = network) (hw : network < 2^32)
    (hc : ip &&& (2^32 - 2^q) = network) :
    isNetworkOrBroadcast ip (2^32 - 2^q) =
      (ip == network || ip == network + (2^q - 1)) := by
  unfold isNetworkOrBroadcast
  rw [hc, xor_ones_maskOf 32 q hq]
  have hnq : network = 2^q * (network / 2^q) := by
    conv_lhs => rw [← hnet, and_maskOf 32 q network hq hw]
  have hor : network ||| (2^q - 1) = network + (2^q - 1) := by
    conv_lhs => rw [hnq]
    rw [← Nat.mul_add_lt_is_or
      (Nat.sub_lt (Nat.pos_pow_of_pos q (by norm_num)) (by norm_num)) (network / 2^q)]
    rw [← hnq]
  dsimp only
  rw [hor]

theorem hostLoopV4_eq (q : Nat) (hq : q ≤ 32) (network : Nat)
    (hnet : network &&& (2^32 - 2^q) = network) (hle : network + 2^q ≤ 2^32) :
    ∀ (fuel ip : Nat), network ≤ ip → network + 2^q - ip < fuel →
      hostLoopV4 (2^32 - 2^q) network ip fuel =
        (List.range' ip (network + 2^q - ip)).filter
          (fun a => decide (a ≠ network) && decide (a ≠ network + (2^q - 1))) := by
  have hP : 0 < 2^q := Nat.pos_pow_of_pos q (by norm_num)
  have hw : network < 2^32 := by omega
  intro fuel
  induction fuel with
  | zero => intro ip _ hf; omega
  | succ fuel ih =>
    intro ip hlo hf
    by_cases hub : ip < network + 2^q
    · have hip : ip < 2^32 := by omega
      have hc : ip &&& (2^32 - 2^q) = network :=
        (contains_char 32 q hq network hnet hw ip hip).mpr ⟨hlo, hub⟩
      have hrange : network + 2^q - ip = (network + 2^q - (ip + 1)) + 1 := by omega
      rw [hostLoopV4, if_pos ⟨hip, hc⟩, isNB_char q hq network ip hnet hw hc,
        hrange, List.range'_succ, List.filter_cons]
      by_cases hnb : ip = network ∨ ip = network + (2^q - 1)
      · have hb2 : (ip == network || ip == network + (2^q - 1)) = true := by
          rcases hnb with rfl | rfl <;> simp
        rw [if_pos hb2]
        have hpred : (decide (ip ≠ network) && decide (ip ≠ network + (2^q - 1))) = false := by
          rcases hnb with rfl | rfl <;> simp
        rw [hpred]
        simp only [Bool.false_eq_true, if_false]
        exact ih (ip + 1) (by omega) (by omega)
      · push_neg at hnb
        have hb2 : (ip == network || ip == network + (2^q - 1)) = false := by
          simp [hnb.1, hnb.2]
        rw [hb2]
        have hpred : (decide (ip ≠ network) && decide (ip ≠ network + (2^q - 1))) = true := by
          simp [hnb.1, hnb.2]
        rw [hpred]
        simp only [Bool.false_eq_true, if_false, if_true]
        rw [ih (ip + 1) (by omega) (by omega)]
    · have hz : network + 2^q - ip = 0 := by omega
      rw [hostLoopV4, hz]
      rw [if_neg]
      · simp
      · rintro ⟨hip, hc⟩
        have := (contains_char 32 q hq network hnet hw ip hip).mp hc
        omega

theorem filter_range'_exclude (n M : Nat) (hM : 1 ≤ M) :
    (List.range' n M).filter
        (fun a => decide (a ≠ n) && decide (a ≠ n + (M - 1))) =
      List.range' (n + 1) (M - 2) := by
  rcases Nat.lt_or_ge M 2 with hM2 | hM2
  · obtain rfl : M = 1 := by omega
    simp
  · have hsplit1 : List.range' n M = List.range' n 1 ++ List.range' (n + 1) (M - 1) := by
      have hplus := List.range'_append n 1 (M - 1) 1
      simp only [one_mul, Nat.mul_one] at hplus
      rw [hplus]
      congr 1
      omega
    have hsplit2 : List.range' (n + 1) (M - 1) =
        List.range' (n + 1) (M - 2) ++ List.range' (n + 1 + (M - 2)) 1 := by
      have hplus := List.range'_append (n + 1) (M - 2) 1 1
      simp only [one_mul, Nat.mul_one] at hplus
      rw [hplus]
      congr 1
      omega
    rw [hsplit1, hsplit2, List.filter_append, List.filter_append]
    have he1 : List.filter (fun a => decide (a ≠ n) && decide (a ≠ n + (M - 1)))
        (List.range' n 1) = [] := by
      simp
    have he2 : List.filter (fun a => decide (a ≠ n) && decide (a ≠ n + (M - 1)))
        (List.range' (n + 1 + (M - 2)) 1) = [] := by
      have harith : n + 1 + (M - 2) = n + (M - 1) := by omega
      rw [harith]
      simp
    have hmid : List.filter (fun a => decide (a ≠ n) && decide (a ≠ n + (M - 1)))
        (List.range' (n + 1) (M - 2)) = List.range' (n + 1) (M - 2) := by
      rw [List.filter_eq_self]
      intro a ha
      rw [List.mem_range'_1] at ha
      simp only [Bool.and_eq_true, decide_eq_true_eq]
      omega
    rw [he1, he2, hmid, List.append_nil, List.nil_append]

/-- The IPv4 expansion of a well-formed CIDR is exactly the ascending range
of addresses strictly between the network and broadcast addresses. -/
theorem expandV4_eq (base p : Nat) (hp : p ≤ 32) (hb : base < 2^32) :
    expandV4 base p =
      List.range' ((base &&& (2^32 - 2^(32 - p))) + 1) (2^(32 - p) - 2) := by
  have hq : 32 - p ≤ 32 := by omega
  have hnet : (base &&& (2^32 - 2^(32 - p))) &&& (2^32 - 2^(32 - p)) =
      base &&& (2^32 - 2^(32 - p)) := by
    rw [Nat.and_assoc, Nat.and_self]
  have hle := network_le_pow 32 (32 - p) base hq hb
  have hP : 0 < 2^(32 - p) := Nat.pos_pow_of_pos _ (by norm_num)
  unfold expandV4
  rw [hostLoopV4_eq (32 - p) hq (base &&& (2^32 - 2^(32 - p))) hnet hle
    (2^32 + 1) (base &&& (2^32 - 2^(32 - p))) (le_refl _) (by omega)]
  have harith : (base &&& (2^32 - 2^(32 - p))) + 2^(32 - p) -
      (base &&& (2^32 - 2^(32 - p))) = 2^(32 - p) := by omega
  rw [harith, filter_range'_exclude _ _ Nat.one_le_two_pow]

theorem hostLoopV6_eq (q : Nat) (hq : q ≤ 128) (network : Nat)
    (hnet : network &&& (2^128 - 2^q) = network) (hle : network + 2^q ≤ 2^128) :
    ∀ (r ip : Nat), network ≤ ip → ip < network + 2^q →
      (q < 128 ∨ r ≤ network + 2^q - ip) →
      hostLoopV6 (2^128 - 2^q) network ip r =
        List.range' ip (min r (network + 2^q - ip)) := by
  have hP : 0 < 2^q := Nat.pos_pow_of_pos q (by norm_num)
  have hw : network < 2^128 := by omega
  intro r
  induction r with
  | zero =>
    intro ip _ _ _
    simp only [Nat.min_zero, Nat.zero_min, List.range']
    rfl
  | succ r ih =>
    intro ip hlo hub hside
    have hip : ip < 2^128 := by omega
    have hc : ip &&& (2^128 - 2^q) = network :=
      (contains_char 128 q hq network hnet hw ip hip).mpr ⟨hlo, hub⟩
    rw [hostLoopV6, if_pos hc]
    by_cases hnext : ip + 1 < network + 2^q
    · have hmod : (ip + 1) % 2^128 = ip + 1 := Nat.mod_eq_of_lt (by omega)
      rw [hmod, ih (ip + 1) (by omega) hnext (by omega)]
      have hlen : min (r + 1) (network + 2^q - ip) =
          (min r (network + 2^q - (ip + 1))) + 1 := by omega
      rw [hlen, List.range'_succ]
    · have hlast : ip + 1 = network + 2^q := by omega
      have hlen : min (r + 1) (network + 2^q - ip) = 1 := by omega
      rw [hlen]
      have htail : hostLoopV6 (2^128 - 2^q) network ((ip + 1) % 2^128) r = [] := by
        cases r with
        | zero => rfl
        | succ r' =>
          rcases Nat.lt_or_ge (network + 2^q) (2^128) with hfit | hfit
          · have hmod : (ip + 1) % 2^128 = ip + 1 := Nat.mod_eq_of_lt (by omega)
            rw [hmod, hostLoopV6, if_neg]
            intro hcon
            have := (contains_char 128 q hq network hnet hw (ip + 1) (by omega)).mp hcon
            omega
          · have htop : network + 2^q = 2^128 := by omega
            rcases hside with hside | hside
            · have hmod : (ip + 1) % 2^128 = 0 := by
                rw [hlast, htop, Nat.mod_self]
              rw [hmod, hostLoopV6, if_neg]
              rw [Nat.zero_and]
              have hnz : 0 < network := by
                have hql : (2:Nat)^q < 2^128 := Nat.pow_lt_pow_right (by norm_num) hside
                omega
              omega
            · omega
      rw [htail]
      rfl

/-- The IPv6 expansion of a well-formed CIDR is exactly the first
`min 1024 2^(128-p)` addresses of the net, starting at the network
address. -/
theorem expandV6_eq (base p : Nat) (hp : p ≤ 128) (hb : base < 2^128) :
    expandV6 base p =
      List.range' (base &&& (2^128 - 2^(128 - p))) (min 1024 (2^(128 - p))) := by
  have hq : 128 - p ≤ 128 := by omega
  have hnet : (base &&& (2^128 - 2^(128 - p))) &&& (2^128 - 2^(128 - p)) =
      base &&& (2^128 - 2^(128 - p)) := by
    rw [Nat.and_assoc, Nat.and_self]
  have hle := network_le_pow 128 (128 - p) base hq hb
  have hP : 0 < 2^(128 - p) := Nat.pos_pow_of_pos _ (by norm_num)
  have hside : 128 - p < 128 ∨ v6Cap ≤ (base &&& (2^128 - 2^(128 - p))) + 2^(128 - p) -
      (base &&& (2^128 - 2^(128 - p))) := by
    by_cases hp0 : p = 0
    · right
      subst hp0
      have h1024 : (1024:Nat) ≤ 2^128 := by norm_num
      simp only [Nat.sub_zero] at *
      unfold v6Cap
      omega
    · left; omega
  unfold expandV6
  rw [hostLoopV6_eq (128 - p) hq (base &&& (2^128 - 2^(128 - p))) hnet hle
    v6Cap (base &&& (2^128 - 2^(128 - p))) (le_refl _) (by omega) hside]
  congr 1
  unfold v6Cap
  omega

/-- C4: for every well-formed IPv4 CIDR given to `BuildCandidates`, the
produced candidates are exactly the addresses strictly between the network
address and the broadcast address (both excluded), in ascending order, one
candidate per such address, each formatted `host:port` with the dotted-quad
host and the per-candidate picked port. -/
theorem buildCandidates_v4_strict_between (base p : Nat) (hp : p ≤ 32)
    (hb : base < 2^32) (ports : List String) (rnd : Nat → Nat)
    (v6Str : Nat → String) :
    BuildCandidates V4 [CIDR.v4 base p] [] ports rnd v6Str =
      (List.range' ((base &&& (2^32 - 2^(32 - p))) + 1) (2^(32 - p) - 2)).enum.map
        (fun ki => ipv4String ki.2 ++ ":" ++
          pickPort (if ports.isEmpty then ["443"] else ports) (rnd ki.1)) := by
  unfold BuildCandidates hostsOf
  have hv1 : (V4 = Any ∨ V4 = V4) := Or.inr rfl
  have hv2 : ¬(V4 = Any ∨ V4 = V6) := by unfold Any V4 V6; omega
  rw [if_pos hv1, if_neg hv2]
  simp only [List.flatMap_cons, List.flatMap_nil, List.append_nil, expandCIDRv4]
  rw [expandV4_eq base p hp hb, List.enum_map, List.map_map]
  apply List.map_congr_left
  rintro ⟨k, ip⟩ _
  rfl

/-- Witness for C4: `192.0.2.0/30` (base `3221225984`) yields exactly the two
hosts `192.0.2.1` and `192.0.2.2`, network and broadcast excluded. -/
theorem buildCandidates_v4_strict_between_witness :
    (30 ≤ 32 ∧ 3221225984 < 2^32) ∧
      BuildCandidates V4 [CIDR.v4 3221225984 30] [] ["443"] (fun _ => 0)
        (fun _ => "") = ["192.0.2.1:443", "192.0.2.2:443"] :=
  ⟨⟨by norm_num, by norm_num⟩,
    (buildCandidates_v4_strict_between 3221225984 30 (by norm_num) (by norm_num)
      ["443"] (fun _ => 0) (fun _ => "")).trans (by decide)⟩

/-- C5: for every well-formed IPv6 CIDR given to `BuildCandidates`, the
expansion enumerates sequentially from the network's first address, with no
network/broadcast exclusion (the network address itself is included), and
contributes at most 1024 candidates regardless of prefix size. -/
theorem buildCandidates_v6_sequential_cap (base p : Nat) (hp : p ≤ 128)
    (hb : base < 2^128) (ports : List String) (rnd : Nat → Nat)
    (v6Str : Nat → String) :
    BuildCandidates V6 [] [CIDR.v6 base p] ports rnd v6Str =
        (List.range' (base &&& (2^128 - 2^(128 - p)))
            (min 1024 (2^(128 - p)))).enum.map
          (fun ki => "[" ++ v6Str ki.2 ++ "]:" ++
            pickPort (if ports.isEmpty then ["443"] else ports) (rnd ki.1)) ∧
      (BuildCandidates V6 [] [CIDR.v6 base p] ports rnd v6Str).length ≤ 1024 := by
  have hmain : BuildCandidates V6 [] [CIDR.v6 base p] ports rnd v6Str =
      (List.range' (base &&& (2^128 - 2^(128 - p)))
          (min 1024 (2^(128 - p)))).enum.map
        (fun ki => "[" ++ v6Str ki.2 ++ "]:" ++
          pickPort (if ports.isEmpty then ["443"] else ports) (rnd ki.1)) := by
    unfold BuildCandidates hostsOf
    have hv1 : ¬(V6 = Any ∨ V6 = V4) := by unfold Any V4 V6; omega
    have hv2 : (V6 = Any ∨ V6 = V6) := Or.inr rfl
    rw [if_neg hv1, if_pos hv2]
    simp only [List.flatMap_cons, List.flatMap_nil, List.append_nil,
      List.nil_append, expandCIDRv6]
    rw [expandV6_eq base p hp hb, List.enum_map, List.map_map]
    apply List.map_congr_left
    rintro ⟨k, ip⟩ _
    rfl
  refine ⟨hmain, ?_⟩
  rw [hmain, List.length_map, List.enum_length, List.length_range']
  omega

/-- Witness for C5: the CIDR `::/125` (8 addresses) yields its 8 addresses
starting at the network address `::` itself, under the 1024 cap. -/
theorem buildCandidates_v6_sequential_cap_witness :
    (125 ≤ 128 ∧ 5 < 2^128) ∧
      BuildCandidates V6 [] [CIDR.v6 5 125] ["443"] (fun _ => 0)
          (fun _ => "h") =
        ["[h]:443", "[h]:443", "[h]:443", "[h]:443",
          "[h]:443", "[h]:443", "[h]:443", "[h]:443"] ∧
      (BuildCandidates V6 [] [CIDR.v6 5 125] ["443"] (fun _ => 0)
          (fun _ => "h")).length ≤ 1024 :=
  ⟨⟨by norm_num, by norm_num⟩,
    ((buildCandidates_v6_sequential_cap 5 125 (by norm_num) (by norm_num)
        ["443"] (fun _ => 0) (fun _ => "h")).1).trans (by decide),
    (buildCandidates_v6_sequential_cap 5 125 (by norm_num) (by norm_num)
        ["443"] (fun _ => 0) (fun _ => "h")).2⟩

theorem enum_map_snd_comp {α β : Type} (g : α → β) (l : List α) :
    l.enum.map (fun kh => g kh.2) = l.map g := by
  rw [show (fun kh : Nat × α => g kh.2) = g ∘ Prod.snd from rfl,
    ← List.map_map, List.enum_map_snd]

/-- C10: `BuildCandidates` with an empty port list behaves exactly as with
`["443"]` — every produced candidate carries port 443 — and with exactly one
configured port every candidate carries that port; in both cases the random
oracle is never consulted (two arbitrary oracles give identical output). -/
theorem buildCandidates_port_default (ver : Nat) (v4s v6s : List CIDR)
    (rnd rnd' : Nat → Nat) (v6Str : Nat → String) (port : String) :
    BuildCandidates ver v4s v6s [] rnd v6Str =
        (hostsOf ver v4s v6s).map (fun h => fmtCandidate v6Str h "443") ∧
      BuildCandidates ver v4s v6s [port] rnd v6Str =
        (hostsOf ver v4s v6s).map (fun h => fmtCandidate v6Str h port) ∧
      BuildCandidates ver v4s v6s [] rnd v6Str =
        BuildCandidates ver v4s v6s ["443"] rnd' v6Str := by
  have key : ∀ (x : String) (rr : Nat → Nat),
      (hostsOf ver v4s v6s).enum.map
          (fun kh => fmtCandidate v6Str kh.2 (pickPort [x] (rr kh.1))) =
        (hostsOf ver v4s v6s).map (fun h => fmtCandidate v6Str h x) := by
    intro x rr
    have hf : (fun kh : Nat × (Bool × Nat) =>
        fmtCandidate v6Str kh.2 (pickPort [x] (rr kh.1))) =
        (fun kh : Nat × (Bool × Nat) => fmtCandidate v6Str kh.2 x) := by
      funext kh
      rfl
    rw [hf]
    exact enum_map_snd_comp (fun h => fmtCandidate v6Str h x) (hostsOf ver v4s v6s)
  have hempty : BuildCandidates ver v4s v6s [] rnd v6Str =
      (hostsOf ver v4s v6s).map (fun h => fmtCandidate v6Str h "443") := by
    unfold BuildCandidates
    exact key "443" rnd
  have hsingle : BuildCandidates ver v4s v6s [port] rnd v6Str =
      (hostsOf ver v4s v6s).map (fun h => fmtCandidate v6Str h port) := by
    unfold BuildCandidates
    exact key port rnd
  have hdefault : BuildCandidates ver v4s v6s ["443"] rnd' v6Str =
      (hostsOf ver v4s v6s).map (fun h => fmtCandidate v6Str h "443") := by
    unfold BuildCandidates
    exact key "443" rnd'
  exact ⟨hempty, hsingle, hempty.trans hdefault.symm⟩

end Masque
